import Mathlib

/-!
# EdgeX message-bus source of Kuiper (`xstream/extensions/edgex_source.go`)

A shallow embedding of `EdgexSource` (`Configure`, `Open`, `getValue`, `Close`)
and the properties of it that the specification states.

Conventions of the embedding

* Go maps with string keys are association lists with at most one entry per key
  (`GoMap`); `store` is the Go assignment `m[k] = v`.
* A run-time panic is an explicit outcome (`Res.panic`, `Ctl.panicked`).
* The collaborators that are not part of this repository are inputs of the model:
  the float parser `strconv.ParseFloat(_, 32)` (`parseFloat`), the JSON decoder
  `models.Event.UnmarshalJSON` (`decode`), and the answers of the ZeroMQ socket
  (`Dial`, `SetOption`, `Recv`, `Close`) together with the outcome of each
  `select` between the consumer channel and `ctx.Done()`.
* `strconv.Atoi` and `strconv.ParseBool` are modelled concretely (64-bit `int`).
* Logging is a trace of `LogEntry` values, one constructor per call site.
-/

namespace Kuiper

/-! ## Go maps with string keys -/

/-- Go map from strings to `V`: the list holds at most one entry per key. -/
structure GoMap (V : Type) where
  entries : List (String × V)
deriving DecidableEq, Repr

namespace GoMap

variable {V : Type}

/-- Result of `make(map[string]V)`. -/
def empty : GoMap V := ⟨[]⟩

/-- Lookup in a list of entries. -/
def lookupIn : List (String × V) → String → Option V
  | [], _ => none
  | (k, v) :: rest, key => if k = key then some v else lookupIn rest key

/-- Go `v, ok := m[key]`. -/
def lookup (m : GoMap V) (key : String) : Option V := lookupIn m.entries key

/-- Entries without the one for `key`. -/
def removeIn : List (String × V) → String → List (String × V)
  | [], _ => []
  | (k, v) :: rest, key => if k = key then removeIn rest key else (k, v) :: removeIn rest key

/-- Go `m[key] = v`: the entry for `key` is replaced or created. -/
def store (m : GoMap V) (key : String) (v : V) : GoMap V :=
  ⟨(key, v) :: removeIn m.entries key⟩

/-- Keys of the map. -/
def keys (m : GoMap V) : List String := m.entries.map Prod.fst

/-- Go `len(m)`. -/
def len (m : GoMap V) : Nat := m.entries.length

end GoMap

/-! ## `strconv` -/

/-- Value of a run of decimal digits, `none` when a character is not a digit. -/
def digitsValue : List Char → Nat → Option Nat
  | [], acc => some acc
  | c :: cs, acc =>
    if c.isDigit then digitsValue cs (acc * 10 + (c.toNat - 48)) else none

/-- Go `strconv.Atoi` on a 64-bit platform: an optional sign, then one or more
decimal digits, the value within `[-2^63, 2^63 - 1]`; `none` is a non-nil error. -/
def Atoi (s : String) : Option Int :=
  let cs := s.toList
  let neg := cs.head? = some '-'
  let body := if cs.head? = some '-' ∨ cs.head? = some '+' then cs.tail else cs
  if body = [] then none
  else
    match digitsValue body 0 with
    | none => none
    | some n =>
      if neg then (if n ≤ 2 ^ 63 then some (-(n : Int)) else none)
      else (if n < 2 ^ 63 then some (n : Int) else none)

/-- Go `strconv.ParseBool`; `none` is a non-nil error. -/
def ParseBool (s : String) : Option Bool :=
  if s = "1" ∨ s = "t" ∨ s = "T" ∨ s = "true" ∨ s = "TRUE" ∨ s = "True" then some true
  else if s = "0" ∨ s = "f" ∨ s = "F" ∨ s = "false" ∨ s = "FALSE" ∨ s = "False" then some false
  else none

/-- First-character condition met by every text that `strconv.ParseFloat`
accepts: a sign, a digit, a dot, or the first letter of `inf`, `infinity`, `nan`
in either case. -/
def floatLeadOK (s : String) : Bool :=
  match s.toList with
  | [] => false
  | c :: _ => c.isDigit || c = '+' || c = '-' || c = '.' || c = 'i' || c = 'I' || c = 'n' || c = 'N'

/-! ## Data model -/

/-- Fields of `models.Reading` that the source reads. -/
structure Reading where
  Id : String
  Pushed : Int
  Created : Int
  Origin : Int
  Modified : Int
  Device : String
  Name : String
  Value : String
deriving DecidableEq, Repr

/-- Fields of `models.Event` that the source reads. -/
structure Event where
  ID : String
  Pushed : Int
  Device : String
  Created : Int
  Modified : Int
  Origin : Int
  Readings : List Reading
deriving DecidableEq, Repr

/-- Dynamic values (`interface{}`) stored in the values mapping; `F` is the type
of `float64` results of the float parser. -/
inductive Any (F : Type) where
  | int (n : Int)
  | float (f : F)
  | str (s : String)
  | bool (b : Bool)
deriving DecidableEq, Repr

/-- Go `error` values: one returned by a library call (socket, decoder), or the
one `Open` builds with `fmt.Errorf("Failed to connect to edgex message bus: " + ...)`. -/
inductive Err where
  | lib (msg : String)
  | connectFailed (cause : Err)
deriving DecidableEq, Repr

/-- One frame of a message (`[]byte`). -/
abbrev Frame := List (Fin 256)

/-- Calls of the logger, one constructor per call site of the source. -/
inductive LogEntry (F : Type) where
  | connectFailed (info : Err)
  | connected
  | subscribeFailed (e : Err)
  | subscribed (topic : String)
  | closed
  | recvError (e : Err)
  | unmarshalFail (payload : Frame) (e : Err)
  | received (frame : Frame) (device : String)
  | valueFail (name : String) (e : Err)
  | emptyName
  | sent
  | noReadings
  | typeInteger (name : String) (value : Int)
  | typeFloat (name : String) (value : F)
  | typeBool (name : String) (value : Bool)
  | typeString (name : String) (value : String)
deriving DecidableEq, Repr

/-- Level of the logger method used at the call site. -/
inductive Level where
  | debug | info | warn | error
deriving DecidableEq, Repr

/-- Level of a log entry. -/
def LogEntry.level {F : Type} : LogEntry F → Level
  | .connectFailed _ => .error
  | .connected => .info
  | .subscribeFailed _ => .error
  | .subscribed _ => .info
  | .closed => .info
  | .recvError _ => .warn
  | .unmarshalFail _ _ => .warn
  | .received _ _ => .debug
  | .valueFail _ _ => .warn
  | .emptyName => .warn
  | .sent => .debug
  | .noReadings => .warn
  | .typeInteger _ _ => .debug
  | .typeFloat _ _ => .debug
  | .typeBool _ _ => .debug
  | .typeString _ _ => .debug

/-! ## `getValue` -/

/-- Result of `getValue`: the returned pair and the logger calls made. -/
structure GetValue (F : Type) where
  value : Any F
  err : Option Err
  logs : List (LogEntry F)

/-- The method `EdgexSource.getValue`. -/
def getValue {F : Type} (parseFloat : String → Option F) (r : Reading) : GetValue F :=
  let v := r.Value
  match Atoi v with
  | some value => ⟨.int value, none, [.typeInteger r.Name value]⟩
  | none =>
    match parseFloat v with
    | some value => ⟨.float value, none, [.typeFloat r.Name value]⟩
    | none =>
      match ParseBool v with
      | some value => ⟨.str v, none, [.typeBool r.Name value]⟩
      | none => ⟨.str v, none, [.typeString r.Name v]⟩

/-! ## The connector -/

/-- Calls made on the ZeroMQ subscriber socket. -/
inductive SockCall where
  | dial (uri : String)
  | subscribe (topic : String)
  | recv
  | close
deriving DecidableEq, Repr

/-- The `zmq4.Socket` held by the connector, as the history of calls made on it;
what each call answers is an input of the model. -/
structure Socket where
  calls : List SockCall
deriving DecidableEq, Repr

/-- Result of `zmq4.NewSub`. -/
def NewSub : Socket := ⟨[]⟩

/-- Record a call on the socket. -/
def Socket.call (s : Socket) (c : SockCall) : Socket := ⟨s.calls ++ [c]⟩

/-- The struct `EdgexSource`. -/
structure EdgexSource where
  client : Socket
  subscribed : Bool
  topic : String
  uri : String
  valueDescs : GoMap String
deriving DecidableEq, Repr

/-- Dynamic values (`interface{}`) of the option bag given to `Configure`;
`other` stands for every value that is neither a `string` nor an `int`. -/
inductive PropVal where
  | str (s : String)
  | int (n : Int)
  | other
deriving DecidableEq, Repr

/-- Outcome of a call that may panic. -/
inductive Res (α : Type) where
  | ret (a : α)
  | panic
deriving DecidableEq, Repr

/-- The pattern `x := dflt; if p, ok := props[key]; ok { x = p.(string) }`. -/
def stringOption (dflt : String) : Option PropVal → Res String
  | none => .ret dflt
  | some (.str s) => .ret s
  | some _ => .panic

/-- The pattern `x := dflt; if p, ok := props[key]; ok { x = p.(int) }`. -/
def intOption (dflt : Int) : Option PropVal → Res Int
  | none => .ret dflt
  | some (.int n) => .ret n
  | some _ => .panic

/-- The method `EdgexSource.Configure`: the new state and the returned error. -/
def Configure (es : EdgexSource) (_device : String) (props : GoMap PropVal) :
    Res (EdgexSource × Option Err) :=
  match stringOption "tcp" (props.lookup "protocol") with
  | .panic => .panic
  | .ret protocol =>
    match stringOption "localhost" (props.lookup "server") with
    | .panic => .panic
    | .ret server =>
      match intOption 5563 (props.lookup "port") with
      | .panic => .panic
      | .ret port =>
        match stringOption "" (props.lookup "topic") with
        | .panic => .panic
        | .ret topic =>
          .ret ({ es with
                  topic := topic
                  uri := protocol ++ "://" ++ server ++ ":" ++ toString port
                  client := NewSub }, none)

/-- The method `EdgexSource.Close`; `sockClose` is what `es.client.Close()` answers when it
is called. -/
def Close (es : EdgexSource) (sockClose : Option Err) : EdgexSource × Option Err :=
  if es.subscribed then
    let es1 := { es with subscribed := false }
    let es2 := { es1 with client := es1.client.call .close }
    match sockClose with
    | some e => (es2, some e)
    | none => (es2, none)
  else (es, none)

/-- String and `int64` values stored in metadata. -/
inductive Scalar where
  | str (s : String)
  | int64 (n : Int)
deriving DecidableEq, Repr

/-- Values of the metadata mapping: an event-level field or the sub-record of a
reading. -/
inductive MetaVal where
  | field (v : Scalar)
  | sub (m : GoMap Scalar)
deriving DecidableEq, Repr

/-- The tuple built by `api.NewDefaultSourceTuple(result, meta)`. -/
structure SourceTuple (F : Type) where
  message : GoMap (Any F)
  meta : GoMap MetaVal
deriving DecidableEq

/-- The map `r_meta` built for a reading. -/
def readingMeta (r : Reading) : GoMap Scalar :=
  (((((GoMap.empty.store "id" (.str r.Id)).store "created" (.int64 r.Created)).store
    "modified" (.int64 r.Modified)).store "origin" (.int64 r.Origin)).store
    "pushed" (.int64 r.Pushed)).store "device" (.str r.Device)

/-- Local state of the loop over the readings of one event. -/
structure Acc (F : Type) where
  result : GoMap (Any F)
  meta : GoMap MetaVal
  logs : List (LogEntry F)

/-- Body of `for _, r := range e.Readings`. -/
def readingStep {F : Type} (parseFloat : String → Option F) (a : Acc F) (r : Reading) : Acc F :=
  if r.Name ≠ "" then
    let g := getValue parseFloat r
    let a1 : Acc F :=
      match g.err with
      | some err => { a with logs := a.logs ++ g.logs ++ [.valueFail r.Name err] }
      | none => { a with result := a.result.store r.Name g.value, logs := a.logs ++ g.logs }
    { a1 with meta := a1.meta.store r.Name (.sub (readingMeta r)) }
  else { a with logs := a.logs ++ [.emptyName] }

/-- The event-level assignments `meta["id"] = e.ID`, ... made before a send. -/
def eventMeta (meta : GoMap MetaVal) (e : Event) : GoMap MetaVal :=
  (((((meta.store "id" (.field (.str e.ID))).store "pushed" (.field (.int64 e.Pushed))).store
    "device" (.field (.str e.Device))).store "created" (.field (.int64 e.Created))).store
    "modified" (.field (.int64 e.Modified))).store "origin" (.field (.int64 e.Origin))

/-- Everything `Open` has done so far that can be observed from outside. -/
structure World (F : Type) where
  es : EdgexSource
  logs : List (LogEntry F)
  errCh : List Err
  consumer : List (SourceTuple F)
deriving DecidableEq

/-- Where control is after a step. -/
inductive Ctl where
  | running
  | returned
  | panicked
deriving DecidableEq, Repr

/-- The slice expression `str[0:(len-1)]` with `len = min(len(str), 200)`:
`none` is the run-time panic for a negative bound. -/
def payloadHead (str : Frame) : Option Frame :=
  let len : Int := str.length
  let len := if len > 200 then 200 else len
  if len - 1 < 0 then none else some (str.take (len - 1).toNat)

/-- Body of `for _, str := range msg.Frames`. `done k` tells whether the `select`
reached after `k` tuples were sent takes the `ctx.Done()` branch. -/
def frameStep {F : Type} (decode : Frame → Except Err Event) (parseFloat : String → Option F)
    (done : Nat → Bool) (w : World F) (str : Frame) : World F × Ctl :=
  match decode str with
  | .error err =>
    match payloadHead str with
    | none => (w, .panicked)
    | some p => ({ w with logs := w.logs ++ [.unmarshalFail p err] }, .running)
  | .ok e =>
    let a := e.Readings.foldl (readingStep parseFloat) ⟨.empty, .empty, [.received str e.Device]⟩
    if a.result.len > 0 then
      let meta := eventMeta a.meta e
      if done w.consumer.length then ({ w with logs := w.logs ++ a.logs }, .returned)
      else
        ({ w with logs := w.logs ++ a.logs ++ [.sent]
                  consumer := w.consumer ++ [⟨a.result, meta⟩] }, .running)
    else ({ w with logs := w.logs ++ a.logs ++ [.noReadings] }, .running)

/-- The loop `for _, str := range msg.Frames`. -/
def framesLoop {F : Type} (decode : Frame → Except Err Event) (parseFloat : String → Option F)
    (done : Nat → Bool) : World F → List Frame → World F × Ctl
  | w, [] => (w, .running)
  | w, str :: rest =>
    match frameStep decode parseFloat done w str with
    | (w1, .running) => framesLoop decode parseFloat done w1 rest
    | (w1, c) => (w1, c)

/-- What the environment does next: `es.client.Recv()` returns, or another
goroutine runs `Close` (whose socket close answers `r`). -/
inductive Input where
  | recv (r : Except Err (List Frame))
  | close (r : Option Err)

/-- The receive loop `for { msg, err := es.client.Recv() ... }` driven by a finite
script; at the end of the script the loop is still running (blocked in `Recv`). -/
def recvLoop {F : Type} (decode : Frame → Except Err Event) (parseFloat : String → Option F)
    (done : Nat → Bool) : World F → List Input → World F × Ctl
  | w, [] => (w, .running)
  | w, .close r :: rest =>
    recvLoop decode parseFloat done { w with es := (Close w.es r).1 } rest
  | w, .recv r :: rest =>
    let w := { w with es := { w.es with client := w.es.client.call .recv } }
    match r with
    | .error err =>
      if !w.es.subscribed then ({ w with logs := w.logs ++ [.closed] }, .returned)
      else recvLoop decode parseFloat done { w with logs := w.logs ++ [.recvError err] } rest
    | .ok frames =>
      match framesLoop decode parseFloat done w frames with
      | (w1, .running) => recvLoop decode parseFloat done w1 rest
      | (w1, c) => (w1, c)

/-- The method `EdgexSource.Open`; `dialR` and `subR` are what `Dial` and `SetOption` answer. -/
def Open {F : Type} (decode : Frame → Except Err Event) (parseFloat : String → Option F)
    (done : Nat → Bool) (es : EdgexSource) (dialR subR : Option Err) (script : List Input) :
    World F × Ctl :=
  let es1 := { es with client := es.client.call (.dial es.uri) }
  match dialR with
  | some err =>
    let info := Err.connectFailed err
    (⟨es1, [.connectFailed info], [info], []⟩, .returned)
  | none =>
    let es2 := { es1 with client := es1.client.call (.subscribe es1.topic) }
    match subR with
    | some e => (⟨es2, [.connected, .subscribeFailed e], [e], []⟩, .returned)
    | none =>
      recvLoop decode parseFloat done
        ⟨{ es2 with subscribed := true }, [.connected, .subscribed es2.topic], [], []⟩ script

/-! ## Notions used in the statements -/

/-- Names of the readings that have a non-empty name, in arrival order. -/
def readingNames (rs : List Reading) : List String :=
  (rs.filter (fun r => decide (r.Name ≠ ""))).map Reading.Name

/-- Keys of the event-level assignments to the metadata mapping. -/
def eventKeys : List String := ["id", "pushed", "device", "created", "modified", "origin"]

/-- Whether a metadata value is the sub-record of a reading. -/
def MetaVal.isSub : MetaVal → Bool
  | .sub _ => true
  | .field _ => false

/-- Number of entries of a metadata mapping that are sub-records of readings. -/
def perReadingCount (m : GoMap MetaVal) : Nat :=
  (m.entries.filter (fun p => p.2.isSub)).length

/-- The select never takes the `ctx.Done()` branch. -/
def neverDone : Nat → Bool := fun _ => false

/-- Tuples that one frame produces when it is processed on its own, without
cancellation. -/
def frameRecords {F : Type} (decode : Frame → Except Err Event)
    (parseFloat : String → Option F) (str : Frame) : List (SourceTuple F) :=
  (frameStep decode parseFloat neverDone ⟨⟨NewSub, true, "", "", .empty⟩, [], [], []⟩ str).1.consumer

/-! ## Sample inputs -/

/-- A float parser that accepts `1.5` only. -/
def sampleParseFloat : String → Option ℚ :=
  fun s => if s = "1.5" then some (3 / 2) else none

/-- The event of the frame
`{"id":"e1","device":"sensor1","readings":[{"name":"temp","value":"42"},{"name":"","value":"ignored"}]}`. -/
def tempEvent : Event :=
  ⟨"e1", 0, "sensor1", 0, 0, 0,
    [⟨"", 0, 0, 0, 0, "", "temp", "42"⟩, ⟨"", 0, 0, 0, 0, "", "", "ignored"⟩]⟩

/-- An event whose two readings share the name `temp`:
`{"id":"e2","device":"sensor1","readings":[{"id":"r1","name":"temp","value":"1"},{"id":"r2","name":"temp","value":"2"}]}`. -/
def dupEvent : Event :=
  ⟨"e2", 0, "sensor1", 0, 0, 0,
    [⟨"r1", 0, 0, 0, 0, "", "temp", "1"⟩, ⟨"r2", 0, 0, 0, 0, "", "temp", "2"⟩]⟩

/-- An event with a reading named `device`:
`{"id":"e3","device":"sensor1","readings":[{"id":"r1","name":"device","value":"on"}]}`. -/
def deviceEvent : Event :=
  ⟨"e3", 0, "sensor1", 0, 0, 0, [⟨"r1", 0, 0, 0, 0, "", "device", "on"⟩]⟩

/-- A decoder for the samples: the frames `[1]`, `[2]`, `[3]` stand for the JSON
texts of `tempEvent`, `dupEvent`, `deviceEvent`; every other frame, the empty one
included, fails to decode. -/
def sampleDecode : Frame → Except Err Event
  | [1] => .ok tempEvent
  | [2] => .ok dupEvent
  | [3] => .ok deviceEvent
  | [] => .error (.lib "unexpected end of JSON input")
  | _ => .error (.lib "invalid character")

/-- A subscribed connector that has sent and logged nothing yet. -/
def sampleWorld : World ℚ :=
  ⟨⟨NewSub, true, "", "tcp://localhost:5563", .empty⟩, [], [], []⟩

/-! ## Lemmas on Go maps -/

namespace GoMap

variable {V : Type}

theorem lookupIn_removeIn_ne (l : List (String × V)) {key k : String} (h : k ≠ key) :
    lookupIn (removeIn l key) k = lookupIn l k := by
  induction l with
  | nil => rfl
  | cons p rest ih =>
    obtain ⟨a, b⟩ := p
    by_cases ha : a = key
    · have hak : ¬ a = k := fun hk => h (hk ▸ ha)
      simp only [removeIn, lookupIn, if_pos ha, if_neg hak, ih]
    · by_cases hk : a = k
      · simp only [removeIn, lookupIn, if_neg ha, if_pos hk]
      · simp only [removeIn, lookupIn, if_neg ha, if_neg hk, ih]

theorem lookup_store_self (m : GoMap V) (key : String) (v : V) :
    (m.store key v).lookup key = some v := by
  simp [store, lookup, lookupIn]

theorem lookup_store_ne (m : GoMap V) {key k : String} (v : V) (h : k ≠ key) :
    (m.store key v).lookup k = m.lookup k := by
  have hk : ¬ key = k := fun hk => h hk.symm
  simp only [store, lookup, lookupIn, if_neg hk, lookupIn_removeIn_ne _ h]

theorem mem_keys_removeIn (l : List (String × V)) (key k : String) :
    k ∈ (removeIn l key).map Prod.fst ↔ k ∈ l.map Prod.fst ∧ k ≠ key := by
  induction l with
  | nil => simp [removeIn]
  | cons p rest ih =>
    obtain ⟨a, b⟩ := p
    by_cases ha : a = key
    · simp only [removeIn, if_pos ha, ih, List.map_cons, List.mem_cons]
      constructor
      · rintro ⟨h1, h2⟩
        exact ⟨Or.inr h1, h2⟩
      · rintro ⟨h1 | h1, h2⟩
        · exact absurd (h1.trans ha) h2
        · exact ⟨h1, h2⟩
    · simp only [removeIn, if_neg ha, List.map_cons, List.mem_cons, ih]
      constructor
      · rintro (h1 | ⟨h1, h2⟩)
        · exact ⟨Or.inl h1, fun h => ha (h1 ▸ h)⟩
        · exact ⟨Or.inr h1, h2⟩
      · rintro ⟨h1 | h1, h2⟩
        · exact Or.inl h1
        · exact Or.inr ⟨h1, h2⟩

theorem mem_removeIn (l : List (String × V)) (key : String) (p : String × V)
    (h : p ∈ removeIn l key) : p ∈ l := by
  induction l with
  | nil => simp [removeIn] at h
  | cons q rest ih =>
    obtain ⟨a, b⟩ := q
    by_cases ha : a = key
    · simp only [removeIn, if_pos ha] at h
      exact List.mem_cons_of_mem _ (ih h)
    · simp only [removeIn, if_neg ha, List.mem_cons] at h
      rcases h with h | h
      · exact h ▸ List.mem_cons_self _ _
      · exact List.mem_cons_of_mem _ (ih h)

theorem nodup_keys_removeIn (l : List (String × V)) (key : String)
    (h : (l.map Prod.fst).Nodup) : ((removeIn l key).map Prod.fst).Nodup := by
  induction l with
  | nil => simp [removeIn]
  | cons p rest ih =>
    obtain ⟨a, b⟩ := p
    rw [List.map_cons, List.nodup_cons] at h
    by_cases ha : a = key
    · simp only [removeIn, if_pos ha]
      exact ih h.2
    · simp only [removeIn, if_neg ha, List.map_cons, List.nodup_cons]
      exact ⟨fun hm => h.1 ((mem_keys_removeIn rest key a).1 hm).1, ih h.2⟩

theorem mem_keys_store (m : GoMap V) (key : String) (v : V) (k : String) :
    k ∈ (m.store key v).keys ↔ k = key ∨ k ∈ m.keys := by
  simp only [store, keys, List.map_cons, List.mem_cons, mem_keys_removeIn]
  constructor
  · rintro (h | ⟨h, _⟩)
    · exact Or.inl h
    · exact Or.inr h
  · rintro (h | h)
    · exact Or.inl h
    · by_cases hk : k = key
      · exact Or.inl hk
      · exact Or.inr ⟨h, hk⟩

theorem lookupIn_of_mem (l : List (String × V)) (h : (l.map Prod.fst).Nodup) (p : String × V)
    (hp : p ∈ l) : lookupIn l p.1 = some p.2 := by
  induction l with
  | nil => simp at hp
  | cons q rest ih =>
    obtain ⟨a, b⟩ := q
    rw [List.map_cons, List.nodup_cons] at h
    rcases List.mem_cons.1 hp with hp | hp
    · subst hp
      simp [lookupIn]
    · have hne : ¬ a = p.1 := by
        intro ha
        have hm : p.1 ∈ rest.map Prod.fst := List.mem_map_of_mem Prod.fst hp
        rw [← ha] at hm
        exact h.1 hm
      simp only [lookupIn, if_neg hne]
      exact ih h.2 hp

theorem mem_of_lookupIn (l : List (String × V)) (k : String) (v : V)
    (h : lookupIn l k = some v) : (k, v) ∈ l := by
  induction l with
  | nil => simp [lookupIn] at h
  | cons q rest ih =>
    obtain ⟨a, b⟩ := q
    by_cases ha : a = k
    · simp only [lookupIn, if_pos ha, Option.some.injEq] at h
      rw [ha, h]
      exact List.mem_cons_self _ _
    · simp only [lookupIn, if_neg ha] at h
      exact List.mem_cons_of_mem _ (ih h)

theorem nodup_keys_store (m : GoMap V) (key : String) (v : V) (h : m.keys.Nodup) :
    (m.store key v).keys.Nodup := by
  simp only [store, keys, List.map_cons, List.nodup_cons]
  exact ⟨fun hm => ((mem_keys_removeIn _ key key).1 hm).2 rfl, nodup_keys_removeIn _ key h⟩

theorem keys_store_congr {W : Type} (m : GoMap V) (n : GoMap W) (key : String) (v : V) (w : W)
    (h : m.keys = n.keys) : (m.store key v).keys = (n.store key w).keys := by
  have aux : ∀ (l : List (String × V)) (l2 : List (String × W)),
      l.map Prod.fst = l2.map Prod.fst →
      (removeIn l key).map Prod.fst = (removeIn l2 key).map Prod.fst := by
    intro l
    induction l with
    | nil =>
      intro l2 hl
      cases l2 with
      | nil => rfl
      | cons q r => simp at hl
    | cons p rest ih =>
      intro l2 hl
      cases l2 with
      | nil => simp at hl
      | cons q r =>
        obtain ⟨a, b⟩ := p
        obtain ⟨c, d⟩ := q
        simp only [List.map_cons, List.cons.injEq] at hl
        obtain ⟨hac, hr⟩ := hl
        subst hac
        by_cases ha : a = key
        · simp only [removeIn, if_pos ha]
          exact ih r hr
        · simp only [removeIn, if_neg ha, List.map_cons, ih r hr]
  simp only [store, keys, List.map_cons, aux m.entries n.entries h]

end GoMap

/-! ## Value inference -/

theorem parseFloat_none_of_lead {F : Type} (parseFloat : String → Option F)
    (hpf : ∀ s, (parseFloat s).isSome = true → floatLeadOK s = true) (s : String)
    (h : floatLeadOK s = false) : parseFloat s = none := by
  cases hs : parseFloat s with
  | none => rfl
  | some f =>
    have := hpf s (by rw [hs]; rfl)
    rw [h] at this
    exact absurd this (by decide)

theorem getValue_err {F : Type} (parseFloat : String → Option F) (r : Reading) :
    (getValue parseFloat r).err = none := by
  unfold getValue
  dsimp only
  repeat' split
  all_goals rfl

theorem getValue_value {F : Type} (parseFloat : String → Option F) (r : Reading) :
    (getValue parseFloat r).value =
      match Atoi r.Value with
      | some n => .int n
      | none =>
        match parseFloat r.Value with
        | some f => .float f
        | none => .str r.Value := by
  unfold getValue
  dsimp only
  repeat' split
  all_goals rfl

/-- C1: `getValue` never returns an error and applies the checks in the order
integer, 32-bit float, text: the integer when `Atoi` accepts the value; otherwise
the float when the float parser accepts it; otherwise the value itself as text,
whether `ParseBool` accepts it or not. -/
theorem getValue_first_match {F : Type} (parseFloat : String → Option F) (r : Reading) :
    (getValue parseFloat r).err = none ∧
    (∀ n, Atoi r.Value = some n → (getValue parseFloat r).value = .int n) ∧
    (∀ f, Atoi r.Value = none → parseFloat r.Value = some f →
      (getValue parseFloat r).value = .float f) ∧
    (Atoi r.Value = none → parseFloat r.Value = none →
      ((ParseBool r.Value).isSome = true → (getValue parseFloat r).value = .str r.Value) ∧
      ((ParseBool r.Value).isSome = false → (getValue parseFloat r).value = .str r.Value)) := by
  refine ⟨getValue_err parseFloat r, ?_, ?_, ?_⟩
  · intro n hn
    rw [getValue_value, hn]
  · intro f ha hf
    rw [getValue_value, ha, hf]
  · intro ha hf
    have h : (getValue parseFloat r).value = .str r.Value := by
      rw [getValue_value, ha, hf]
    exact ⟨fun _ => h, fun _ => h⟩

/-- C7: for a value spelled as one of the twelve boolean literals `getValue`
returns no boolean: the integer for `"1"` and `"0"`, and the text itself for the
other ten, so `"true"` gives the string `"true"`. The float parser is any parser
that, like `strconv.ParseFloat`, accepts only texts starting with a sign, a digit,
a dot or one of `i`, `I`, `n`, `N`. -/
theorem getValue_bool_literal {F : Type} (parseFloat : String → Option F)
    (hpf : ∀ s, (parseFloat s).isSome = true → floatLeadOK s = true) (r : Reading)
    (hb : r.Value ∈ ["1", "t", "T", "TRUE", "true", "True",
                     "0", "f", "F", "FALSE", "false", "False"]) :
    (ParseBool r.Value).isSome = true ∧
    (∀ b, (getValue parseFloat r).value ≠ .bool b) ∧
    (r.Value = "1" → (getValue parseFloat r).value = .int 1) ∧
    (r.Value = "0" → (getValue parseFloat r).value = .int 0) ∧
    (r.Value ≠ "1" → r.Value ≠ "0" → (getValue parseFloat r).value = .str r.Value) := by
  have key : ∀ v : String, r.Value = v → Atoi v = none → floatLeadOK v = false →
      (getValue parseFloat r).value = .str r.Value := by
    intro v hv ha hl
    have hf := parseFloat_none_of_lead parseFloat hpf v hl
    rw [getValue_value, hv, ha, hf]
  have hint : ∀ (v : String) (n : Int), r.Value = v → Atoi v = some n →
      (getValue parseFloat r).value = .int n := by
    intro v n hv ha
    rw [getValue_value, hv, ha]
  simp only [List.mem_cons, List.mem_singleton, List.mem_nil_iff, or_false] at hb
  rcases hb with h | h | h | h | h | h | h | h | h | h | h | h
  · have e := hint _ 1 h (by decide)
    refine ⟨by rw [h]; decide, ?_, ?_, ?_, ?_⟩
    · intro b; rw [e]; exact fun x => Any.noConfusion x
    · intro _; exact e
    · intro h0; rw [h] at h0; exact absurd h0 (by decide)
    · intro h1; exact absurd h h1
  all_goals first
    | (have e := key _ h (by decide) (by decide)
       refine ⟨by rw [h]; decide, ?_, ?_, ?_, ?_⟩
       · intro b; rw [e]; exact fun x => Any.noConfusion x
       · intro h1; rw [h] at h1; exact absurd h1 (by decide)
       · intro h0; rw [h] at h0; exact absurd h0 (by decide)
       · intro _ _; exact e)
    | (have e := hint _ 0 h (by decide)
       refine ⟨by rw [h]; decide, ?_, ?_, ?_, ?_⟩
       · intro b; rw [e]; exact fun x => Any.noConfusion x
       · intro h1; rw [h] at h1; exact absurd h1 (by decide)
       · intro _; exact e
       · intro _ h0; exact absurd h h0)

theorem sampleParseFloat_lead (s : String) (h : (sampleParseFloat s).isSome = true) :
    floatLeadOK s = true := by
  unfold sampleParseFloat at h
  by_cases hs : s = "1.5"
  · subst hs
    decide
  · simp [hs] at h

/-- C7 at the value `"true"`, with the sample float parser: the hypotheses hold and
the result is the string `"true"`. -/
theorem getValue_bool_literal_witness :
    (ParseBool "true").isSome = true ∧
    (getValue sampleParseFloat ⟨"r1", 0, 0, 0, 0, "sensor1", "flag", "true"⟩).value =
      .str "true" :=
  have h := getValue_bool_literal sampleParseFloat sampleParseFloat_lead
    ⟨"r1", 0, 0, 0, 0, "sensor1", "flag", "true"⟩ (by decide)
  ⟨h.1, h.2.2.2.2 (by decide) (by decide)⟩

/-! ## The loop over the readings of an event -/

theorem readingStep_named {F : Type} (parseFloat : String → Option F) (a : Acc F) (r : Reading)
    (h : r.Name ≠ "") :
    readingStep parseFloat a r =
      ⟨a.result.store r.Name (getValue parseFloat r).value,
        a.meta.store r.Name (.sub (readingMeta r)),
        a.logs ++ (getValue parseFloat r).logs⟩ := by
  have herr := getValue_err parseFloat r
  unfold readingStep
  simp only [if_pos h, herr]

theorem readingStep_unnamed {F : Type} (parseFloat : String → Option F) (a : Acc F) (r : Reading)
    (h : r.Name = "") :
    readingStep parseFloat a r = { a with logs := a.logs ++ [.emptyName] } := by
  unfold readingStep
  simp only [h, ne_eq, not_true_eq_false, if_false]

theorem readingNames_cons_named (r : Reading) (rs : List Reading) (h : r.Name ≠ "") :
    readingNames (r :: rs) = r.Name :: readingNames rs := by
  simp [readingNames, List.filter_cons, h]

theorem readingNames_cons_unnamed (r : Reading) (rs : List Reading) (h : r.Name = "") :
    readingNames (r :: rs) = readingNames rs := by
  simp [readingNames, List.filter_cons, h]

theorem fold_keys_eq {F : Type} (parseFloat : String → Option F) (rs : List Reading) :
    ∀ a : Acc F, a.result.keys = a.meta.keys →
      (rs.foldl (readingStep parseFloat) a).result.keys =
        (rs.foldl (readingStep parseFloat) a).meta.keys := by
  induction rs with
  | nil => intro a h; exact h
  | cons r rest ih =>
    intro a h
    rw [List.foldl_cons]
    apply ih
    by_cases hn : r.Name = ""
    · rw [readingStep_unnamed parseFloat a r hn]; exact h
    · rw [readingStep_named parseFloat a r hn]
      exact GoMap.keys_store_congr _ _ _ _ _ h

theorem fold_keys_nodup {F : Type} (parseFloat : String → Option F) (rs : List Reading) :
    ∀ a : Acc F, a.meta.keys.Nodup → (rs.foldl (readingStep parseFloat) a).meta.keys.Nodup := by
  induction rs with
  | nil => intro a h; exact h
  | cons r rest ih =>
    intro a h
    rw [List.foldl_cons]
    apply ih
    by_cases hn : r.Name = ""
    · rw [readingStep_unnamed parseFloat a r hn]; exact h
    · rw [readingStep_named parseFloat a r hn]
      exact GoMap.nodup_keys_store _ _ _ h

theorem fold_mem_keys {F : Type} (parseFloat : String → Option F) (rs : List Reading) :
    ∀ (a : Acc F) (k : String),
      k ∈ (rs.foldl (readingStep parseFloat) a).meta.keys ↔
        k ∈ a.meta.keys ∨ k ∈ readingNames rs := by
  induction rs with
  | nil => intro a k; simp [readingNames]
  | cons r rest ih =>
    intro a k
    rw [List.foldl_cons, ih]
    by_cases hn : r.Name = ""
    · rw [readingStep_unnamed parseFloat a r hn, readingNames_cons_unnamed r rest hn]
    · rw [readingStep_named parseFloat a r hn, readingNames_cons_named r rest hn]
      simp only [GoMap.mem_keys_store, List.mem_cons]
      constructor
      · rintro ((h | h) | h)
        · exact Or.inr (Or.inl h)
        · exact Or.inl h
        · exact Or.inr (Or.inr h)
      · rintro (h | h | h)
        · exact Or.inl (Or.inr h)
        · exact Or.inl (Or.inl h)
        · exact Or.inr h

theorem fold_lookup_kept {F : Type} (parseFloat : String → Option F) (rs : List Reading) :
    ∀ (a : Acc F) (k : String), (∀ r ∈ rs, r.Name ≠ k) →
      (rs.foldl (readingStep parseFloat) a).meta.lookup k = a.meta.lookup k := by
  induction rs with
  | nil => intro a k _; rfl
  | cons r rest ih =>
    intro a k h
    rw [List.foldl_cons, ih _ k (fun x hx => h x (List.mem_cons_of_mem _ hx))]
    by_cases hn : r.Name = ""
    · rw [readingStep_unnamed parseFloat a r hn]
    · rw [readingStep_named parseFloat a r hn]
      exact GoMap.lookup_store_ne _ _ (Ne.symm (h r (List.mem_cons_self _ _)))

theorem fold_all_sub {F : Type} (parseFloat : String → Option F) (rs : List Reading) :
    ∀ a : Acc F, (∀ p ∈ a.meta.entries, p.2.isSub = true) →
      ∀ p ∈ (rs.foldl (readingStep parseFloat) a).meta.entries, p.2.isSub = true := by
  induction rs with
  | nil => intro a h; exact h
  | cons r rest ih =>
    intro a h
    rw [List.foldl_cons]
    apply ih
    by_cases hn : r.Name = ""
    · rw [readingStep_unnamed parseFloat a r hn]; exact h
    · rw [readingStep_named parseFloat a r hn]
      intro p hp
      simp only [GoMap.store, List.mem_cons] at hp
      rcases hp with hp | hp
      · rw [hp]; rfl
      · exact h p (GoMap.mem_removeIn _ _ _ hp)

/-! ## Event-level metadata -/

theorem eventMeta_lookup_other (m : GoMap MetaVal) (e : Event) (k : String)
    (h : k ∉ eventKeys) : (eventMeta m e).lookup k = m.lookup k := by
  simp only [eventKeys, List.mem_cons, List.mem_singleton, List.mem_nil_iff, or_false,
    not_or] at h
  obtain ⟨h1, h2, h3, h4, h5, h6⟩ := h
  unfold eventMeta
  rw [GoMap.lookup_store_ne _ _ h6, GoMap.lookup_store_ne _ _ h5, GoMap.lookup_store_ne _ _ h4,
    GoMap.lookup_store_ne _ _ h3, GoMap.lookup_store_ne _ _ h2, GoMap.lookup_store_ne _ _ h1]

theorem eventMeta_lookup_event (m : GoMap MetaVal) (e : Event) :
    (eventMeta m e).lookup "id" = some (.field (.str e.ID)) ∧
    (eventMeta m e).lookup "device" = some (.field (.str e.Device)) ∧
    (eventMeta m e).lookup "created" = some (.field (.int64 e.Created)) ∧
    (eventMeta m e).lookup "modified" = some (.field (.int64 e.Modified)) ∧
    (eventMeta m e).lookup "origin" = some (.field (.int64 e.Origin)) ∧
    (eventMeta m e).lookup "pushed" = some (.field (.int64 e.Pushed)) := by
  simp [eventMeta, GoMap.store, GoMap.lookup, GoMap.lookupIn]

theorem eventMeta_mem_keys (m : GoMap MetaVal) (e : Event) (k : String) :
    k ∈ (eventMeta m e).keys ↔ k ∈ eventKeys ∨ k ∈ m.keys := by
  simp only [eventMeta, GoMap.mem_keys_store, eventKeys, List.mem_cons, List.mem_singleton,
    List.mem_nil_iff, or_false]
  tauto

theorem eventMeta_keys_nodup (m : GoMap MetaVal) (e : Event) (h : m.keys.Nodup) :
    (eventMeta m e).keys.Nodup := by
  unfold eventMeta
  exact GoMap.nodup_keys_store _ _ _ (GoMap.nodup_keys_store _ _ _ (GoMap.nodup_keys_store _ _ _
    (GoMap.nodup_keys_store _ _ _ (GoMap.nodup_keys_store _ _ _ (GoMap.nodup_keys_store _ _ _ h)))))

theorem eventMeta_isSub_iff (m : GoMap MetaVal) (e : Event) (hn : m.keys.Nodup)
    (hs : ∀ p ∈ m.entries, p.2.isSub = true) (p : String × MetaVal)
    (hp : p ∈ (eventMeta m e).entries) : p.2.isSub = decide (p.1 ∉ eventKeys) := by
  have hl : (eventMeta m e).lookup p.1 = some p.2 :=
    GoMap.lookupIn_of_mem _ (eventMeta_keys_nodup m e hn) p hp
  by_cases hk : p.1 ∈ eventKeys
  · obtain ⟨h1, h2, h3, h4, h5, h6⟩ := eventMeta_lookup_event m e
    have hf : ∃ v, p.2 = MetaVal.field v := by
      simp only [eventKeys, List.mem_cons, List.mem_singleton, List.mem_nil_iff, or_false] at hk
      rcases hk with hk | hk | hk | hk | hk | hk <;> rw [hk] at hl
      · exact ⟨_, Option.some.inj (hl.symm.trans h1)⟩
      · exact ⟨_, Option.some.inj (hl.symm.trans h6)⟩
      · exact ⟨_, Option.some.inj (hl.symm.trans h2)⟩
      · exact ⟨_, Option.some.inj (hl.symm.trans h3)⟩
      · exact ⟨_, Option.some.inj (hl.symm.trans h4)⟩
      · exact ⟨_, Option.some.inj (hl.symm.trans h5)⟩
    obtain ⟨v, hv⟩ := hf
    rw [hv]
    simp [MetaVal.isSub, hk]
  · rw [eventMeta_lookup_other m e p.1 hk] at hl
    have := hs _ (GoMap.mem_of_lookupIn _ _ _ hl)
    simp only at this
    rw [this]
    simp [hk]

theorem perReadingCount_eventMeta (m : GoMap MetaVal) (e : Event) (hn : m.keys.Nodup)
    (hs : ∀ p ∈ m.entries, p.2.isSub = true) :
    perReadingCount (eventMeta m e) =
      (m.keys.filter (fun k => decide (k ∉ eventKeys))).length := by
  have h1 : (eventMeta m e).entries.filter (fun p => p.2.isSub) =
      (eventMeta m e).entries.filter (fun p => decide (p.1 ∉ eventKeys)) :=
    List.filter_congr (fun p hp => eventMeta_isSub_iff m e hn hs p hp)
  have h2 : ((eventMeta m e).entries.filter (fun p => decide (p.1 ∉ eventKeys))).length =
      ((eventMeta m e).keys.filter (fun k => decide (k ∉ eventKeys))).length := by
    unfold GoMap.keys
    rw [List.filter_map, List.length_map]
    rfl
  have h3 : ((eventMeta m e).keys.filter (fun k => decide (k ∉ eventKeys))).Perm
      (m.keys.filter (fun k => decide (k ∉ eventKeys))) := by
    rw [List.perm_ext_iff_of_nodup ((eventMeta_keys_nodup m e hn).filter _) (hn.filter _)]
    intro k
    simp only [List.mem_filter, eventMeta_mem_keys, decide_eq_true_eq]
    tauto
  unfold perReadingCount
  rw [h1, h2, h3.length_eq]

/-! ## One frame -/

theorem readingMeta_lookup (r : Reading) :
    (readingMeta r).lookup "id" = some (.str r.Id) ∧
    (readingMeta r).lookup "created" = some (.int64 r.Created) ∧
    (readingMeta r).lookup "modified" = some (.int64 r.Modified) ∧
    (readingMeta r).lookup "origin" = some (.int64 r.Origin) ∧
    (readingMeta r).lookup "pushed" = some (.int64 r.Pushed) ∧
    (readingMeta r).lookup "device" = some (.str r.Device) ∧
    (readingMeta r).len = 6 := by
  simp [readingMeta, GoMap.store, GoMap.lookup, GoMap.lookupIn, GoMap.empty, GoMap.removeIn,
    GoMap.len]

theorem frameStep_decoded {F : Type} (decode : Frame → Except Err Event)
    (parseFloat : String → Option F) (done : Nat → Bool) (w : World F) (str : Frame)
    (e : Event) (hdec : decode str = .ok e) :
    frameStep decode parseFloat done w str =
      if (e.Readings.foldl (readingStep parseFloat)
            ⟨.empty, .empty, [.received str e.Device]⟩).result.len > 0 then
        if done w.consumer.length then
          ({ w with logs := w.logs ++ (e.Readings.foldl (readingStep parseFloat)
              ⟨.empty, .empty, [.received str e.Device]⟩).logs }, .returned)
        else
          ({ w with
              logs := w.logs ++ (e.Readings.foldl (readingStep parseFloat)
                ⟨.empty, .empty, [.received str e.Device]⟩).logs ++ [.sent]
              consumer := w.consumer ++
                [⟨(e.Readings.foldl (readingStep parseFloat)
                    ⟨.empty, .empty, [.received str e.Device]⟩).result,
                  eventMeta (e.Readings.foldl (readingStep parseFloat)
                    ⟨.empty, .empty, [.received str e.Device]⟩).meta e⟩] }, .running)
      else
        ({ w with logs := w.logs ++ (e.Readings.foldl (readingStep parseFloat)
            ⟨.empty, .empty, [.received str e.Device]⟩).logs ++ [.noReadings] }, .running) := by
  unfold frameStep
  simp only [hdec]

theorem fold_from_empty {F : Type} (parseFloat : String → Option F) (rs : List Reading)
    (logs : List (LogEntry F)) :
    (rs.foldl (readingStep parseFloat) ⟨.empty, .empty, logs⟩).result.keys =
      (rs.foldl (readingStep parseFloat) ⟨.empty, .empty, logs⟩).meta.keys ∧
    (rs.foldl (readingStep parseFloat) ⟨.empty, .empty, logs⟩).meta.keys.Nodup ∧
    (rs.foldl (readingStep parseFloat) ⟨.empty, .empty, logs⟩).meta.keys.Perm
      (readingNames rs).dedup ∧
    (∀ p ∈ (rs.foldl (readingStep parseFloat) ⟨.empty, .empty, logs⟩).meta.entries,
      p.2.isSub = true) ∧
    (rs.foldl (readingStep parseFloat) ⟨.empty, .empty, logs⟩).result.len =
      (readingNames rs).dedup.length := by
  have hk := fold_keys_eq parseFloat rs ⟨.empty, .empty, logs⟩ rfl
  have hnd := fold_keys_nodup parseFloat rs ⟨.empty, .empty, logs⟩ List.nodup_nil
  have hperm : (rs.foldl (readingStep parseFloat) ⟨.empty, .empty, logs⟩).meta.keys.Perm
      (readingNames rs).dedup := by
    rw [List.perm_ext_iff_of_nodup hnd (List.nodup_dedup _)]
    intro k
    rw [fold_mem_keys, List.mem_dedup]
    simp [GoMap.empty, GoMap.keys]
  refine ⟨hk, hnd, hperm, ?_, ?_⟩
  · apply fold_all_sub
    intro p hp
    simp [GoMap.empty] at hp
  · have : ∀ m : GoMap (Any F), m.len = m.keys.length := by
      intro m
      simp [GoMap.len, GoMap.keys]
    rw [this, hk, hperm.length_eq]

/-- C2, as amended: a decoded event none of whose readings has a name sends nothing,
whatever the cancellation signal does; otherwise, unless cancellation wins the select,
exactly one tuple is sent, whose values mapping has one entry per distinct non-empty
reading name and whose metadata mapping has one reading sub-record per distinct
non-empty name that is not an event-level key; both numbers are the number M of named
readings when the names are pairwise distinct and none is an event-level key. When
cancellation wins the select nothing is sent and `Open` returns. -/
theorem frameStep_record_size {F : Type} (decode : Frame → Except Err Event)
    (parseFloat : String → Option F) (done : Nat → Bool) (w : World F) (str : Frame)
    (e : Event) (hdec : decode str = .ok e) :
    (readingNames e.Readings = [] →
      (frameStep decode parseFloat done w str).2 = .running ∧
      (frameStep decode parseFloat done w str).1.consumer = w.consumer) ∧
    (readingNames e.Readings ≠ [] → done w.consumer.length = false →
      (frameStep decode parseFloat done w str).2 = .running ∧
      ∃ t, (frameStep decode parseFloat done w str).1.consumer = w.consumer ++ [t] ∧
        t.message.len = (readingNames e.Readings).dedup.length ∧
        perReadingCount t.meta =
          ((readingNames e.Readings).dedup.filter (fun k => decide (k ∉ eventKeys))).length ∧
        ((readingNames e.Readings).Nodup →
          t.message.len = (readingNames e.Readings).length) ∧
        ((readingNames e.Readings).Nodup → (∀ k ∈ readingNames e.Readings, k ∉ eventKeys) →
          perReadingCount t.meta = (readingNames e.Readings).length)) ∧
    (readingNames e.Readings ≠ [] → done w.consumer.length = true →
      (frameStep decode parseFloat done w str).2 = .returned ∧
      (frameStep decode parseFloat done w str).1.consumer = w.consumer) := by
  obtain ⟨_, hnd, hperm, hsub, hlen⟩ :=
    fold_from_empty parseFloat e.Readings [LogEntry.received str e.Device]
  rw [frameStep_decoded decode parseFloat done w str e hdec, hlen]
  by_cases hn : readingNames e.Readings = []
  · simp [hn]
  · have hpos : (readingNames e.Readings).dedup.length > 0 := by
      rcases hd : (readingNames e.Readings).dedup with _ | ⟨x, xs⟩
      · exact absurd (List.dedup_eq_nil _ |>.1 hd) hn
      · simp
    simp only [hpos, if_true]
    refine ⟨fun h => absurd h hn, ?_, ?_⟩
    · intro _ hdone
      simp only [hdone, Bool.false_eq_true, if_false, true_and]
      refine ⟨_, rfl, hlen, ?_, ?_, ?_⟩
      · rw [perReadingCount_eventMeta _ e hnd hsub]
        exact (hperm.filter _).length_eq
      · intro hdup
        rw [hlen, hdup.dedup]
      · intro hdup hev
        rw [perReadingCount_eventMeta _ e hnd hsub, (hperm.filter _).length_eq, hdup.dedup,
          List.filter_eq_self.2 (fun k hk => by simpa using hev k hk)]
    · intro _ hdone
      simp only [hdone, if_true, and_self]

/-- C2 on the frame of the specification's example: two readings, one named. -/
theorem frameStep_record_size_witness :
    sampleDecode [1] = .ok tempEvent ∧
    (frameStep sampleDecode sampleParseFloat neverDone sampleWorld [1]).2 = .running ∧
    ∃ t, (frameStep sampleDecode sampleParseFloat neverDone sampleWorld [1]).1.consumer = [t] ∧
      t.message.len = 1 ∧ perReadingCount t.meta = 1 :=
  have h := frameStep_record_size sampleDecode sampleParseFloat neverDone sampleWorld [1]
    tempEvent rfl
  match h.2.1 (by decide) rfl with
  | ⟨hr, t, h1, h2, h3, _⟩ => ⟨rfl, hr, t, h1, h2.trans (by decide), h3.trans (by decide)⟩

/-- C2 fails as stated: the event `dupEvent` has two readings with a non-empty name
(M = 2), and the one tuple sent has a single entry in its values mapping and a single
reading sub-record in its metadata mapping. -/
theorem frameStep_record_size_counterexample :
    (readingNames dupEvent.Readings).length = 2 ∧
    (frameStep sampleDecode sampleParseFloat neverDone sampleWorld [2]).1.consumer.map
      (fun t => (t.message.len, perReadingCount t.meta)) = [(1, 1)] :=
  ⟨by decide, by decide⟩

/-- C8, as amended: in a tuple sent for a decoded event, the metadata mapping gives,
for every reading with a non-empty name that is not an event-level key and that no
later reading of the event repeats, that reading's sub-record (`id`, `created`,
`modified`, `origin`, `pushed`, `device` of the reading); it gives the event's fields
under the six event-level keys; and every key of the values mapping is a key of the
metadata mapping. -/
theorem frameStep_metadata {F : Type} (decode : Frame → Except Err Event)
    (parseFloat : String → Option F) (done : Nat → Bool) (w : World F) (str : Frame)
    (e : Event) (t : SourceTuple F) (hdec : decode str = .ok e)
    (hsent : (frameStep decode parseFloat done w str).1.consumer = w.consumer ++ [t]) :
    (∀ (pre : List Reading) (r : Reading) (post : List Reading),
      e.Readings = pre ++ r :: post → r.Name ≠ "" → r.Name ∉ eventKeys →
      (∀ x ∈ post, x.Name ≠ r.Name) →
      t.meta.lookup r.Name = some (.sub (readingMeta r)) ∧
      (readingMeta r).lookup "id" = some (.str r.Id) ∧
      (readingMeta r).lookup "created" = some (.int64 r.Created) ∧
      (readingMeta r).lookup "modified" = some (.int64 r.Modified) ∧
      (readingMeta r).lookup "origin" = some (.int64 r.Origin) ∧
      (readingMeta r).lookup "pushed" = some (.int64 r.Pushed) ∧
      (readingMeta r).lookup "device" = some (.str r.Device) ∧
      (readingMeta r).len = 6) ∧
    (t.meta.lookup "id" = some (.field (.str e.ID)) ∧
      t.meta.lookup "device" = some (.field (.str e.Device)) ∧
      t.meta.lookup "created" = some (.field (.int64 e.Created)) ∧
      t.meta.lookup "modified" = some (.field (.int64 e.Modified)) ∧
      t.meta.lookup "origin" = some (.field (.int64 e.Origin)) ∧
      t.meta.lookup "pushed" = some (.field (.int64 e.Pushed))) ∧
    (∀ k, k ∈ t.message.keys → k ∈ t.meta.keys) := by
  have ht : t = ⟨(e.Readings.foldl (readingStep parseFloat)
        ⟨.empty, .empty, [.received str e.Device]⟩).result,
      eventMeta (e.Readings.foldl (readingStep parseFloat)
        ⟨.empty, .empty, [.received str e.Device]⟩).meta e⟩ := by
    rw [frameStep_decoded decode parseFloat done w str e hdec] at hsent
    split at hsent
    · split at hsent
      · simp at hsent
      · have h2 := List.append_cancel_left hsent
        simp only [List.cons.injEq, and_true] at h2
        exact h2.symm
    · simp at hsent
  obtain ⟨hk, _, _, _, _⟩ :=
    fold_from_empty parseFloat e.Readings [LogEntry.received str e.Device]
  subst ht
  refine ⟨?_, eventMeta_lookup_event _ e, ?_⟩
  · intro pre r post hsplit hname hev hlast
    refine ⟨?_, readingMeta_lookup r⟩
    show (eventMeta _ e).lookup r.Name = _
    rw [eventMeta_lookup_other _ e _ hev, hsplit, List.foldl_append, List.foldl_cons,
      fold_lookup_kept parseFloat post _ r.Name hlast, readingStep_named parseFloat _ r hname]
    exact GoMap.lookup_store_self _ _ _
  · intro k hmem
    show k ∈ (eventMeta _ e).keys
    rw [eventMeta_mem_keys]
    exact Or.inr (hk ▸ hmem)

/-- C8 on the frame of the specification's example. -/
theorem frameStep_metadata_witness :
    (frameStep sampleDecode sampleParseFloat neverDone sampleWorld [1]).1.consumer.map
      (fun t => (t.meta.lookup "temp", t.meta.lookup "device")) =
      [(some (.sub (readingMeta ⟨"", 0, 0, 0, 0, "", "temp", "42"⟩)),
        some (.field (.str "sensor1")))] :=
  have h := frameStep_metadata sampleDecode sampleParseFloat neverDone sampleWorld [1] tempEvent
    ((frameStep sampleDecode sampleParseFloat neverDone sampleWorld [1]).1.consumer.headD
      ⟨.empty, .empty⟩) rfl (by decide)
  have h1 := (h.1 [] ⟨"", 0, 0, 0, 0, "", "temp", "42"⟩ [⟨"", 0, 0, 0, 0, "", "", "ignored"⟩]
    rfl (by decide) (by decide) (by decide)).1
  have h2 := h.2.1.2.1
  have hc : (frameStep sampleDecode sampleParseFloat neverDone sampleWorld [1]).1.consumer =
      [(frameStep sampleDecode sampleParseFloat neverDone sampleWorld [1]).1.consumer.headD
        ⟨.empty, .empty⟩] := by decide
  by rw [hc, List.map_cons, List.map_nil, h1, h2]; rfl

/-- C8 fails as stated: the reading of `deviceEvent` is named `device`, and in the
tuple sent the metadata key `device` holds the event's device, not the sub-record of
the reading. -/
theorem frameStep_metadata_counterexample :
    ∃ r ∈ deviceEvent.Readings, r.Name ≠ "" ∧
      (frameStep sampleDecode sampleParseFloat neverDone sampleWorld [3]).1.consumer.map
        (fun t => (t.meta.lookup r.Name, decide (t.meta.lookup r.Name =
          some (.sub (readingMeta r))))) = [(some (.field (.str "sensor1")), false)] :=
  ⟨⟨"r1", 0, 0, 0, 0, "", "device", "on"⟩, by decide, by decide, by decide⟩

/-! ## Frames that fail to decode -/

theorem payloadHead_nonempty (str : Frame) (h : str ≠ []) :
    payloadHead str = some (str.take (min str.length 200 - 1)) := by
  have hpos : 0 < str.length := List.length_pos.2 h
  unfold payloadHead
  by_cases hl : (str.length : Int) > 200
  · have : min str.length 200 = 200 := by omega
    simp only [hl, if_true, this]
    rfl
  · have h1 : min str.length 200 = str.length := by omega
    have h2 : ¬ ((str.length : Int) - 1 < 0) := by omega
    have h3 : ((str.length : Int) - 1).toNat = str.length - 1 := by omega
    simp only [hl, if_false, h2, h1, h3]

theorem frameStep_malformed_nonempty {F : Type} (decode : Frame → Except Err Event)
    (parseFloat : String → Option F) (done : Nat → Bool) (w : World F) (str : Frame)
    (err : Err) (hdec : decode str = .error err) (h : str ≠ []) :
    frameStep decode parseFloat done w str =
      ({ w with logs := w.logs ++ [.unmarshalFail (str.take (min str.length 200 - 1)) err] },
        .running) := by
  unfold frameStep
  simp only [hdec, payloadHead_nonempty str h]

/-- C3 at the failing input: an empty frame that fails to decode makes the frame step
panic on the slice `str[0:(len-1)]`; the receive loop stops there, so the frames that
follow it in the message and all later messages are never processed. -/
theorem frameStep_empty_frame_panics {F : Type} (decode : Frame → Except Err Event)
    (parseFloat : String → Option F) (done : Nat → Bool) (w : World F) (err : Err)
    (hdec : decode [] = .error err) (frames : List Frame) (rest : List Input) :
    frameStep decode parseFloat done w [] = (w, .panicked) ∧
    recvLoop decode parseFloat done w (.recv (.ok ([] :: frames)) :: rest) =
      ({ w with es := { w.es with client := w.es.client.call .recv } }, .panicked) := by
  have h1 : ∀ w1 : World F, frameStep decode parseFloat done w1 [] = (w1, .panicked) := by
    intro w1
    unfold frameStep
    simp only [hdec]
    rfl
  refine ⟨h1 w, ?_⟩
  simp only [recvLoop, framesLoop, h1]

/-- C3 on a message made of an empty frame followed by the frame of the
specification's example: the loop panics and nothing is sent, although the second
frame alone produces a tuple. -/
theorem frameStep_empty_frame_panics_witness :
    (recvLoop sampleDecode sampleParseFloat neverDone sampleWorld
      [.recv (.ok [[], [1]]), .recv (.ok [[1]])]).2 = .panicked ∧
    (recvLoop sampleDecode sampleParseFloat neverDone sampleWorld
      [.recv (.ok [[], [1]]), .recv (.ok [[1]])]).1.consumer = [] ∧
    (frameRecords sampleDecode sampleParseFloat [1]).length = 1 :=
  have h := (frameStep_empty_frame_panics sampleDecode sampleParseFloat neverDone sampleWorld
    (.lib "unexpected end of JSON input") rfl [[1]] [.recv (.ok [[1]])]).2
  ⟨congrArg Prod.snd h, congrArg (fun x => x.1.consumer) h, by decide⟩

/-! ## Order of emission -/

theorem frameStep_consumer {F : Type} (decode : Frame → Except Err Event)
    (parseFloat : String → Option F) (w : World F) (str : Frame)
    (hsafe : ∀ err, decode str = .error err → str ≠ []) :
    (frameStep decode parseFloat neverDone w str).2 = .running ∧
    (frameStep decode parseFloat neverDone w str).1.consumer =
      w.consumer ++ frameRecords decode parseFloat str := by
  unfold frameRecords
  cases hd : decode str with
  | error err =>
    rw [frameStep_malformed_nonempty decode parseFloat neverDone _ str err hd (hsafe err hd),
      frameStep_malformed_nonempty decode parseFloat neverDone _ str err hd (hsafe err hd)]
    simp
  | ok e =>
    rw [frameStep_decoded decode parseFloat neverDone _ str e hd,
      frameStep_decoded decode parseFloat neverDone _ str e hd]
    by_cases hpos : (e.Readings.foldl (readingStep parseFloat)
        ⟨.empty, .empty, [.received str e.Device]⟩).result.len > 0
    · simp [hpos, neverDone]
    · simp [hpos]

theorem framesLoop_consumer {F : Type} (decode : Frame → Except Err Event)
    (parseFloat : String → Option F) (frames : List Frame) :
    ∀ w : World F, (∀ str ∈ frames, ∀ err, decode str = .error err → str ≠ []) →
      (framesLoop decode parseFloat neverDone w frames).2 = .running ∧
      (framesLoop decode parseFloat neverDone w frames).1.consumer =
        w.consumer ++ frames.flatMap (frameRecords decode parseFloat) := by
  induction frames with
  | nil => intro w _; simp [framesLoop]
  | cons str rest ih =>
    intro w hsafe
    obtain ⟨h1, h2⟩ := frameStep_consumer decode parseFloat w str
      (hsafe str (List.mem_cons_self _ _))
    rcases hfs : frameStep decode parseFloat neverDone w str with ⟨w1, c⟩
    rw [hfs] at h1 h2
    simp only at h1 h2
    subst h1
    obtain ⟨i1, i2⟩ := ih w1 (fun x hx => hsafe x (List.mem_cons_of_mem _ hx))
    simp only [framesLoop, hfs]
    refine ⟨i1, ?_⟩
    rw [i2, h2, List.flatMap_cons, List.append_assoc]

/-- The receive loop sends, in arrival order, the tuples of the frames of the messages
it receives, when no select takes the `ctx.Done()` branch and no frame is both empty
and rejected by the decoder. -/
theorem recvLoop_in_order {F : Type} (decode : Frame → Except Err Event)
    (parseFloat : String → Option F) (msgs : List (List Frame)) :
    ∀ w : World F,
      (∀ m ∈ msgs, ∀ str ∈ m, ∀ err, decode str = .error err → str ≠ []) →
      (recvLoop decode parseFloat neverDone w (msgs.map (fun m => Input.recv (.ok m)))).2 =
        .running ∧
      (recvLoop decode parseFloat neverDone w
          (msgs.map (fun m => Input.recv (.ok m)))).1.consumer =
        w.consumer ++ msgs.flatMap (fun m => m.flatMap (frameRecords decode parseFloat)) := by
  induction msgs with
  | nil => intro w _; simp [recvLoop]
  | cons m rest ih =>
    intro w hsafe
    obtain ⟨h1, h2⟩ := framesLoop_consumer decode parseFloat m
      { w with es := { w.es with client := w.es.client.call .recv } }
      (hsafe m (List.mem_cons_self _ _))
    rcases hfl : framesLoop decode parseFloat neverDone
      { w with es := { w.es with client := w.es.client.call .recv } } m with ⟨w1, c⟩
    rw [hfl] at h1 h2
    simp only at h1 h2
    subst h1
    obtain ⟨i1, i2⟩ := ih w1 (fun x hx => hsafe x (List.mem_cons_of_mem _ hx))
    simp only [List.map_cons, recvLoop, hfl]
    refine ⟨i1, ?_⟩
    rw [i2, h2, List.flatMap_cons, List.append_assoc]

/-- C10 at the failing input: for one message made of the frame of the
specification's example, an empty frame and a third well-formed frame, the loop sends
the tuple of the first frame, panics on the empty frame and never sends the tuple of
the third, while the three frames taken one by one produce two tuples. -/
theorem recvLoop_order_cut_by_empty_frame :
    (recvLoop sampleDecode sampleParseFloat neverDone sampleWorld
      [.recv (.ok [[1], [], [2]])]).2 = .panicked ∧
    (recvLoop sampleDecode sampleParseFloat neverDone sampleWorld
      [.recv (.ok [[1], [], [2]])]).1.consumer =
      frameRecords sampleDecode sampleParseFloat [1] ∧
    ([[[1], [], [2]]].flatMap
      (fun m => m.flatMap (frameRecords sampleDecode sampleParseFloat))).length = 2 := by
  decide

/-! ## Configuration -/

/-- C4: when each of `protocol`, `server`, `port`, `topic` is absent or holds a value
of its type (string, string, int, string), `Configure` returns a nil error, sets
`uri` to `protocol://server:port` and `topic` to the topic, with `tcp`, `localhost`,
`5563` and the empty string for the absent ones; assigning any other key of the bag
does not change the outcome. -/
theorem Configure_defaults (es : EdgexSource) (device : String) (props : GoMap PropVal)
    (protocol server topic : Option String) (port : Option Int)
    (hprotocol : props.lookup "protocol" = protocol.map PropVal.str)
    (hserver : props.lookup "server" = server.map PropVal.str)
    (hport : props.lookup "port" = port.map PropVal.int)
    (htopic : props.lookup "topic" = topic.map PropVal.str) :
    Configure es device props =
      .ret ({ es with
              topic := topic.getD ""
              uri := protocol.getD "tcp" ++ "://" ++ server.getD "localhost" ++ ":" ++
                toString (port.getD 5563)
              client := NewSub }, none) ∧
    ∀ (k : String) (v : PropVal), k ∉ ["protocol", "server", "port", "topic"] →
      Configure es device (props.store k v) = Configure es device props := by
  constructor
  · unfold Configure
    rw [hprotocol, hserver, hport, htopic]
    cases protocol <;> cases server <;> cases port <;> cases topic <;> rfl
  · intro k v hk
    simp only [List.mem_cons, List.mem_singleton, List.mem_nil_iff, or_false, not_or] at hk
    obtain ⟨h1, h2, h3, h4⟩ := hk
    unfold Configure
    rw [GoMap.lookup_store_ne props v (Ne.symm h1), GoMap.lookup_store_ne props v (Ne.symm h2),
      GoMap.lookup_store_ne props v (Ne.symm h3), GoMap.lookup_store_ne props v (Ne.symm h4)]

/-- C4 at a bag that gives `server` and an unrelated key `qos` and omits the rest. -/
theorem Configure_defaults_witness :
    Configure ⟨NewSub, false, "old", "old", GoMap.empty⟩ "demo"
        ((GoMap.empty.store "server" (PropVal.str "10.0.0.7")).store "qos" PropVal.other) =
      .ret (⟨NewSub, false, "", "tcp://10.0.0.7:5563", GoMap.empty⟩, none) :=
  (Configure_defaults ⟨NewSub, false, "old", "old", GoMap.empty⟩ "demo"
    ((GoMap.empty.store "server" (PropVal.str "10.0.0.7")).store "qos" PropVal.other)
    none (some "10.0.0.7") none none (by decide) (by decide) (by decide) (by decide)).1.trans
    (by decide)

/-! ## Close -/

/-- C6: `Close` always leaves the flag false; it returns an error exactly when the
flag was true and the socket close failed, and that error is the socket's; with the
flag true the socket close is called once; with the flag false nothing changes and
nil is returned, so a second `Close` changes nothing. -/
theorem Close_flag_guarded (es : EdgexSource) (sockClose : Option Err) :
    (Close es sockClose).1.subscribed = false ∧
    (∀ e, (Close es sockClose).2 = some e ↔ (es.subscribed = true ∧ sockClose = some e)) ∧
    (es.subscribed = true →
      (Close es sockClose).1 = { es with subscribed := false, client := es.client.call .close }) ∧
    (es.subscribed = false → Close es sockClose = (es, none)) ∧
    (∀ again : Option Err,
      Close (Close es sockClose).1 again = ((Close es sockClose).1, none)) := by
  obtain ⟨client, subscribed, topic, uri, descs⟩ := es
  cases subscribed <;> cases sockClose <;> simp [Close]

/-! ## Setup and the receive loop -/

/-- C9: when `Dial` fails, or `Dial` succeeds and `SetOption` fails, `Open` returns
after sending exactly one error on the error channel, with no tuple sent, the flag
unchanged (false for a connector that was not subscribed) and no `Recv` among the
socket calls it made; when both succeed it is the receive loop started with the flag
true. -/
theorem Open_setup {F : Type} (decode : Frame → Except Err Event)
    (parseFloat : String → Option F) (done : Nat → Bool) (es : EdgexSource)
    (dialR subR : Option Err) (script : List Input) :
    (∀ e, dialR = some e →
      (Open decode parseFloat done es dialR subR script).2 = .returned ∧
      (Open decode parseFloat done es dialR subR script).1.errCh = [.connectFailed e] ∧
      (Open decode parseFloat done es dialR subR script).1.consumer = [] ∧
      (Open decode parseFloat done es dialR subR script).1.es.subscribed = es.subscribed ∧
      (Open decode parseFloat done es dialR subR script).1.es.client.calls =
        es.client.calls ++ [.dial es.uri]) ∧
    (∀ e, dialR = none → subR = some e →
      (Open decode parseFloat done es dialR subR script).2 = .returned ∧
      (Open decode parseFloat done es dialR subR script).1.errCh = [e] ∧
      (Open decode parseFloat done es dialR subR script).1.consumer = [] ∧
      (Open decode parseFloat done es dialR subR script).1.es.subscribed = es.subscribed ∧
      (Open decode parseFloat done es dialR subR script).1.es.client.calls =
        es.client.calls ++ [.dial es.uri, .subscribe es.topic]) ∧
    (dialR = none → subR = none →
      Open decode parseFloat done es dialR subR script =
        recvLoop decode parseFloat done
          ⟨{ es with subscribed := true
                     client := (es.client.call (.dial es.uri)).call (.subscribe es.topic) },
            [.connected, .subscribed es.topic], [], []⟩ script) := by
  refine ⟨?_, ?_, ?_⟩
  · intro e h
    subst h
    simp [Open, Socket.call]
  · intro e h1 h2
    subst h1 h2
    simp [Open, Socket.call]
  · intro h1 h2
    subst h1 h2
    rfl

/-- C5: when `Recv` returns an error and the flag is false the loop returns, the only
log entry being the info entry of the clean shutdown; when the flag is true the loop
logs the error at warning level, sends nothing, and goes on with the next `Recv`; in
particular a `Recv` error that follows a call of `Close` ends the loop with no
warning. -/
theorem recvLoop_recv_error {F : Type} (decode : Frame → Except Err Event)
    (parseFloat : String → Option F) (done : Nat → Bool) (w : World F) (err : Err)
    (rest : List Input) :
    (w.es.subscribed = false →
      recvLoop decode parseFloat done w (.recv (.error err) :: rest) =
        ({ w with es := { w.es with client := w.es.client.call .recv }
                  logs := w.logs ++ [.closed] }, .returned) ∧
      LogEntry.level (.closed : LogEntry F) = .info) ∧
    (w.es.subscribed = true →
      recvLoop decode parseFloat done w (.recv (.error err) :: rest) =
        recvLoop decode parseFloat done
          { w with es := { w.es with client := w.es.client.call .recv }
                   logs := w.logs ++ [.recvError err] } rest ∧
      LogEntry.level (.recvError err : LogEntry F) = .warn ∧
      (recvLoop decode parseFloat done w [.recv (.error err)]).2 = .running ∧
      (recvLoop decode parseFloat done w [.recv (.error err)]).1.consumer = w.consumer) ∧
    (∀ closeR : Option Err,
      (recvLoop decode parseFloat done w (.close closeR :: .recv (.error err) :: rest)).2 =
        .returned ∧
      (recvLoop decode parseFloat done w (.close closeR :: .recv (.error err) :: rest)).1.logs =
        w.logs ++ [.closed] ∧
      (recvLoop decode parseFloat done w
        (.close closeR :: .recv (.error err) :: rest)).1.consumer = w.consumer) := by
  refine ⟨?_, ?_, ?_⟩
  · intro h
    simp [recvLoop, h, LogEntry.level]
  · intro h
    simp [recvLoop, h, LogEntry.level]
  · intro closeR
    have hc : (Close w.es closeR).1.subscribed = false := by
      unfold Close
      cases hs : w.es.subscribed <;> cases closeR <;> simp [hs]
    simp [recvLoop, hc]

/-! ## Samples of the `strconv` model -/

theorem Atoi_samples :
    Atoi "42" = some 42 ∧ Atoi "-42" = some (-42) ∧ Atoi "+7" = some 7 ∧ Atoi "" = none ∧
    Atoi "+" = none ∧ Atoi "4x" = none ∧ Atoi "1.5" = none ∧ Atoi "true" = none ∧
    Atoi "9223372036854775807" = some 9223372036854775807 ∧
    Atoi "9223372036854775808" = none ∧
    Atoi "-9223372036854775808" = some (-9223372036854775808) := by
  decide

end Kuiper
